import Mathlib

/-!
Verification of the markup-parsing and query engine of `extract_listing.py`:
a shallow embedding of the tree data model, the stack-based tree builder,
the id-anchored selector matcher, the image-URL collector and the
inner-markup serializer, together with theorems settling the spec claims.
-/

namespace Apify

/-- One entry of a node's content sequence: a child element or a text run.
Mirrors `Node` from `extract_listing.py` (tag, attrs, contents), with text
runs inline as in `Node.contents`. -/
inductive Item where
  | elem (tag : String) (attrs : List (String × String)) (contents : List Item)
  | text (s : String)
deriving Repr, Inhabited

/-- The tag of an element; `""` for a text run (text runs never reach the
places where a tag is read, matching the Python code which only calls
`.tag` on `Node` objects). -/
def Item.tag : Item → String
  | .elem t _ _ => t
  | .text _ => ""

/-- The attribute list of an item (`Node.attrs`). -/
def Item.attrs : Item → List (String × String)
  | .elem _ a _ => a
  | .text _ => []

/-- The raw content sequence of an item (`Node.contents`). -/
def Item.contents : Item → List Item
  | .elem _ _ cs => cs
  | .text _ => []

/-- Whether an item is an element (Python `isinstance(item, Node)`). -/
def Item.isElem : Item → Bool
  | .elem _ _ _ => true
  | .text _ => false

/-- `Node.children`: the element entries of the content sequence. -/
def Item.children (n : Item) : List Item :=
  n.contents.filter Item.isElem

/-- Dictionary lookup on an attribute list (`attrs.get(key)`); attribute
lists keep the first occurrence of a key, and lookup returns the first
binding, matching Python dict semantics after `setdefault`. -/
def attrGet (attrs : List (String × String)) (key : String) : Option String :=
  (attrs.find? (fun p => p.1 == key)).map (·.2)

/-- The six ASCII whitespace characters stripped by Python `str.strip()`
and `str.split()` (the unicode-only whitespace code points are not used by
this program's inputs). -/
def isPySpace (c : Char) : Bool :=
  c = ' ' || c = '\t' || c = '\n' || c = '\r' || c = '\x0b' || c = '\x0c'

/-- Python `str.strip()`: drop leading and trailing whitespace. -/
def pyStrip (s : String) : String :=
  ⟨((s.toList.dropWhile isPySpace).reverse.dropWhile isPySpace).reverse⟩

/-- Split a character list at every occurrence of the separator character,
as Python `str.split(sep)` does for a one-character separator: `n`
occurrences of the separator yield `n + 1` (possibly empty) pieces. -/
def splitOnChar (sep : Char) : List Char → List (List Char)
  | [] => [[]]
  | c :: rest =>
    if c = sep then [] :: splitOnChar sep rest
    else
      match splitOnChar sep rest with
      | g :: gs => (c :: g) :: gs
      | [] => [[c]]

/-- Python `s.split(sep)` for a one-character separator, on strings. -/
def pySplitSep (sep : Char) (s : String) : List String :=
  (splitOnChar sep s.toList).map (⟨·⟩)

/-- Split a character list at every character satisfying `p`, keeping
empty pieces between adjacent separators. -/
def splitPred (p : Char → Bool) : List Char → List (List Char)
  | [] => [[]]
  | c :: rest =>
    if p c then [] :: splitPred p rest
    else
      match splitPred p rest with
      | g :: gs => (c :: g) :: gs
      | [] => [[c]]

/-- Python `str.split()` with no arguments: split on whitespace runs,
discarding empty pieces. -/
def pySplitWs (s : String) : List String :=
  ((splitPred isPySpace s.toList).map (⟨·⟩ : List Char → String)).filter (· ≠ "")

/-- Whether `pre` is a prefix of `l`, by character comparison. -/
def listStartsWith : List Char → List Char → Bool
  | [], _ => true
  | _ :: _, [] => false
  | a :: as, b :: bs => a = b && listStartsWith as bs

/-- Python `s.startswith(pre)`. -/
def pyStartsWith (s pre : String) : Bool :=
  listStartsWith pre.toList s.toList

/-- Python `s.endswith(suf)`. -/
def pyEndsWith (s suf : String) : Bool :=
  listStartsWith suf.toList.reverse s.toList.reverse

/-- Python `s[:len(s)-n]`: drop the last `n` characters. -/
def pyDropRight (s : String) (n : Nat) : String :=
  ⟨(s.toList.reverse.drop n).reverse⟩

/-- Python `s[n:]`: drop the first `n` characters. -/
def pyDrop (s : String) (n : Nat) : String :=
  ⟨s.toList.drop n⟩

/-- The maximal suffix of `s` whose characters all satisfy `p`. -/
def pyTakeRightWhile (s : String) (p : Char → Bool) : String :=
  ⟨(s.toList.reverse.takeWhile p).reverse⟩

/-- The character length of a string. -/
def strLen (s : String) : Nat := s.toList.length

/-- `Node.class_list`: the whitespace-separated tokens of the `class`
attribute; empty when the attribute is missing or empty. -/
def Item.classList (n : Item) : List String :=
  match attrGet n.attrs "class" with
  | none => []
  | some v => if v = "" then [] else pySplitWs v

mutual

/-- `find_by_id`: pre-order depth-first search for the first node whose
`id` attribute equals `elementId` exactly. -/
def find_by_id : Item → String → Option Item
  | .text _, _ => none
  | .elem t a cs, i =>
    if attrGet a "id" = some i then some (.elem t a cs)
    else findByIdList cs i

/-- Search a content sequence left to right with `find_by_id`. -/
def findByIdList : List Item → String → Option Item
  | [], _ => none
  | c :: cs, i =>
    match find_by_id c i with
    | some m => some m
    | none => findByIdList cs i

end

/-- Numeric value of a list of ASCII decimal digits. -/
def natOfDigits (ds : List Char) : Nat :=
  ds.foldl (fun a c => a * 10 + (c.toNat - 48)) 0

/-- The trailing `:nth-child(N)` clause matched by
`re.search(r":nth-child\((\d+)\)$", part)`: when `part` ends with
`:nth-child(` followed by one or more decimal digits and `)`, return the
prefix before the clause and the digits' value. -/
def stripNthSuffix (part : String) : Option (String × Nat) :=
  if pyEndsWith part ")" then
    let body := pyDropRight part 1
    let ds := pyTakeRightWhile body Char.isDigit
    if ds = "" then none
    else
      let pre := pyDropRight body (strLen ds)
      if pyEndsWith pre ":nth-child(" then some (pyDropRight pre 11, natOfDigits ds.toList)
      else none
  else none

/-- Split a (nth-free) step on `.` into an optional tag and class tokens. -/
def parseTagClasses (part : String) : Option String × List String :=
  let segments := pySplitSep '.' part
  let tag := match segments with
    | [] => none
    | s :: _ => if s = "" then none else some s
  (tag, (segments.drop 1).filter (· ≠ ""))

/-- `parse_simple_selector`: strip the step, peel a trailing
`:nth-child(N)` clause, then split the remainder into tag and classes. -/
def parse_simple_selector (part0 : String) : Option String × List String × Option Nat :=
  let part := pyStrip part0
  if part = "" then (none, [], none)
  else
    match stripNthSuffix part with
    | some (pre, n) =>
      let part := pyStrip pre
      if part = "" then (none, [], some n)
      else
        let (t, cs) := parseTagClasses part
        (t, cs, some n)
    | none =>
      let (t, cs) := parseTagClasses part
      (t, cs, none)

/-- `match_node`: the candidate must carry the tag when one is required,
and its class list must contain every required class token. -/
def match_node (n : Item) (tag : Option String) (classes : List String) : Bool :=
  (match tag with
   | some t => n.tag == t
   | none => true) &&
  classes.all (fun c => n.classList.contains c)

/-- The step loop of `select_node`: evaluate the remaining steps against
the current node. An empty step is skipped; a step with neither tag nor
nth-child clause fails; an nth-child step indexes the direct children
1-based and checks the constraint; otherwise the first matching direct
child is taken. -/
def selectSteps : Item → List String → Option Item
  | node, [] => some node
  | node, part :: rest =>
    if part = "" then selectSteps node rest
    else
      let (tag, classes, nth) := parse_simple_selector part
      if tag = none ∧ nth = none then none
      else
        let children := node.children
        match nth with
        | some n =>
          let index : Int := (n : Int) - 1
          if 0 ≤ index ∧ index < (children.length : Int) then
            match children.get? index.toNat with
            | some candidate =>
              if (match tag with | some t => candidate.tag != t | none => false) then none
              else if ¬ match_node candidate tag classes then none
              else selectSteps candidate rest
            | none => none
          else none
        | none =>
          match children.find? (fun c => match_node c tag classes) with
          | some c => selectSteps c rest
          | none => none

/-- `select_node`: split on `>`, strip each step, require a `#id` anchor,
locate it depth-first, then run the remaining steps. -/
def select_node (root : Item) (selector : String) : Option Item :=
  let parts := (pySplitSep '>' selector).map pyStrip
  match parts with
  | [] => none
  | first :: rest =>
    if ¬ pyStartsWith first "#" then none
    else
      match find_by_id root (pyDrop first 1) with
      | none => none
      | some node => selectSteps node rest

/-- The fixed void-element set of `extract_listing.py` (`VOID_TAGS`). -/
def VOID_TAGS : List String :=
  ["area", "base", "br", "col", "embed", "hr", "img", "input",
   "link", "meta", "param", "source", "track", "wbr"]

/-- One still-open element of the tree builder: its tag, attributes and
the content accumulated so far. -/
structure Frame where
  tag : String
  attrs : List (String × String)
  contents : List Item
deriving Repr, Inhabited

/-- The tree-builder state: the open elements above the root (innermost
first) and the content accumulated directly under the root. In the Python
builder the stack is `[root, ...]` with the root at index 0; here the root
is kept apart so that `openFrames` is exactly `stack[1:]` reversed. -/
structure PState where
  openFrames : List Frame
  rootContents : List Item
deriving Repr, Inhabited

/-- The token stream fed to the tree builder: each constructor corresponds
to one `handle_*` callback of `SimpleHTMLTreeBuilder`. -/
inductive Token where
  | startTag (tag : String) (attrs : List (String × Option String))
  | startEndTag (tag : String) (attrs : List (String × Option String))
  | endTag (tag : String)
  | data (s : String)
  | entityRef (name : String)
  | charRef (name : String)
  | comment (s : String)
deriving Repr, Inhabited

/-- Build the attribute dictionary of `_start_node`: `None` values become
`""` and on duplicate names the first occurrence wins (`setdefault`). -/
def attrDict (attrs : List (String × Option String)) : List (String × String) :=
  attrs.foldl
    (fun d kv =>
      if d.any (fun p => p.1 == kv.1) then d
      else d ++ [(kv.1, kv.2.getD "")])
    []

/-- Append an item to the content of the current insertion point (the
innermost open element, or the root when none is open). -/
def PState.addContent (st : PState) (item : Item) : PState :=
  match st.openFrames with
  | [] => { st with rootContents := st.rootContents ++ [item] }
  | f :: fs => { st with openFrames := { f with contents := f.contents ++ [item] } :: fs }

/-- `Node.add_text` via the current insertion point: empty text is
discarded. -/
def PState.addText (st : PState) (s : String) : PState :=
  if s = "" then st else st.addContent (.text s)

/-- `_start_node`: a self-closing (or void) element is appended childless
and never opened; any other element becomes the new innermost open
element. -/
def startNode (st : PState) (tag : String) (attrs : List (String × Option String))
    (isSelfClosing : Bool) : PState :=
  let d := attrDict attrs
  if isSelfClosing then st.addContent (.elem tag d [])
  else { st with openFrames := ⟨tag, d, []⟩ :: st.openFrames }

/-- Close the innermost open element, folding it into the element below
it (or into the root content). -/
def closeTop (st : PState) : PState :=
  match st.openFrames with
  | [] => st
  | f :: fs => (PState.mk fs st.rootContents).addContent (.elem f.tag f.attrs f.contents)

/-- Close the `n` innermost open elements in order. -/
def closeN : Nat → PState → PState
  | 0, st => st
  | n + 1, st => closeN n (closeTop st)

/-- The index of the first list element satisfying `p`, scanning from the
head. -/
def frameFindIdx (p : Frame → Bool) : List Frame → Option Nat
  | [] => none
  | f :: fs => if p f then some 0 else (frameFindIdx p fs).map (· + 1)

/-- `handle_endtag`: scan the open elements from the innermost outwards
(the root, `stack[0]`, is never considered) for the nearest one with a
matching tag; close it and everything inside it, or do nothing when no
open element matches. -/
def handle_endtag (st : PState) (tag : String) : PState :=
  match frameFindIdx (fun f => f.tag == tag) st.openFrames with
  | none => st
  | some i => closeN (i + 1) st

/-- The HTML 4.01 name-to-codepoint table `html.entities.name2codepoint`
used by `handle_entityref`. -/
def name2codepoint : List (String × Nat) :=
  [("quot", 34), ("amp", 38), ("lt", 60), ("gt", 62),
   ("nbsp", 160), ("iexcl", 161), ("cent", 162), ("pound", 163),
   ("curren", 164), ("yen", 165), ("brvbar", 166), ("sect", 167),
   ("uml", 168), ("copy", 169), ("ordf", 170), ("laquo", 171),
   ("not", 172), ("shy", 173), ("reg", 174), ("macr", 175),
   ("deg", 176), ("plusmn", 177), ("sup2", 178), ("sup3", 179),
   ("acute", 180), ("micro", 181), ("para", 182), ("middot", 183),
   ("cedil", 184), ("sup1", 185), ("ordm", 186), ("raquo", 187),
   ("frac14", 188), ("frac12", 189), ("frac34", 190), ("iquest", 191),
   ("Agrave", 192), ("Aacute", 193), ("Acirc", 194), ("Atilde", 195),
   ("Auml", 196), ("Aring", 197), ("AElig", 198), ("Ccedil", 199),
   ("Egrave", 200), ("Eacute", 201), ("Ecirc", 202), ("Euml", 203),
   ("Igrave", 204), ("Iacute", 205), ("Icirc", 206), ("Iuml", 207),
   ("ETH", 208), ("Ntilde", 209), ("Ograve", 210), ("Oacute", 211),
   ("Ocirc", 212), ("Otilde", 213), ("Ouml", 214), ("times", 215),
   ("Oslash", 216), ("Ugrave", 217), ("Uacute", 218), ("Ucirc", 219),
   ("Uuml", 220), ("Yacute", 221), ("THORN", 222), ("szlig", 223),
   ("agrave", 224), ("aacute", 225), ("acirc", 226), ("atilde", 227),
   ("auml", 228), ("aring", 229), ("aelig", 230), ("ccedil", 231),
   ("egrave", 232), ("eacute", 233), ("ecirc", 234), ("euml", 235),
   ("igrave", 236), ("iacute", 237), ("icirc", 238), ("iuml", 239),
   ("eth", 240), ("ntilde", 241), ("ograve", 242), ("oacute", 243),
   ("ocirc", 244), ("otilde", 245), ("ouml", 246), ("divide", 247),
   ("oslash", 248), ("ugrave", 249), ("uacute", 250), ("ucirc", 251),
   ("uuml", 252), ("yacute", 253), ("thorn", 254), ("yuml", 255),
   ("fnof", 402),
   ("Alpha", 913), ("Beta", 914), ("Gamma", 915), ("Delta", 916),
   ("Epsilon", 917), ("Zeta", 918), ("Eta", 919), ("Theta", 920),
   ("Iota", 921), ("Kappa", 922), ("Lambda", 923), ("Mu", 924),
   ("Nu", 925), ("Xi", 926), ("Omicron", 927), ("Pi", 928),
   ("Rho", 929), ("Sigma", 931), ("Tau", 932), ("Upsilon", 933),
   ("Phi", 934), ("Chi", 935), ("Psi", 936), ("Omega", 937),
   ("alpha", 945), ("beta", 946), ("gamma", 947), ("delta", 948),
   ("epsilon", 949), ("zeta", 950), ("eta", 951), ("theta", 952),
   ("iota", 953), ("kappa", 954), ("lambda", 955), ("mu", 956),
   ("nu", 957), ("xi", 958), ("omicron", 959), ("pi", 960),
   ("rho", 961), ("sigmaf", 962), ("sigma", 963), ("tau", 964),
   ("upsilon", 965), ("phi", 966), ("chi", 967), ("psi", 968),
   ("omega", 969), ("thetasym", 977), ("upsih", 978), ("piv", 982),
   ("bull", 8226), ("hellip", 8230), ("prime", 8242), ("Prime", 8243),
   ("oline", 8254), ("frasl", 8260), ("weierp", 8472), ("image", 8465),
   ("real", 8476), ("trade", 8482), ("alefsym", 8501),
   ("larr", 8592), ("uarr", 8593), ("rarr", 8594), ("darr", 8595),
   ("harr", 8596), ("crarr", 8629), ("lArr", 8656), ("uArr", 8657),
   ("rArr", 8658), ("dArr", 8659), ("hArr", 8660),
   ("forall", 8704), ("part", 8706), ("exist", 8707), ("empty", 8709),
   ("nabla", 8711), ("isin", 8712), ("notin", 8713), ("ni", 8715),
   ("prod", 8719), ("sum", 8721), ("minus", 8722), ("lowast", 8727),
   ("radic", 8730), ("prop", 8733), ("infin", 8734), ("ang", 8736),
   ("and", 8743), ("or", 8744), ("cap", 8745), ("cup", 8746),
   ("int", 8747), ("there4", 8756), ("sim", 8764), ("cong", 8773),
   ("asymp", 8776), ("ne", 8800), ("equiv", 8801), ("le", 8804),
   ("ge", 8805), ("sub", 8834), ("sup", 8835), ("nsub", 8836),
   ("sube", 8838), ("supe", 8839), ("oplus", 8853), ("otimes", 8855),
   ("perp", 8869), ("sdot", 8901),
   ("lceil", 8968), ("rceil", 8969), ("lfloor", 8970), ("rfloor", 8971),
   ("lang", 9001), ("rang", 9002), ("loz", 9674),
   ("spades", 9824), ("clubs", 9827), ("hearts", 9829), ("diams", 9830),
   ("OElig", 338), ("oelig", 339), ("Scaron", 352), ("scaron", 353),
   ("Yuml", 376), ("circ", 710), ("tilde", 732),
   ("ensp", 8194), ("emsp", 8195), ("thinsp", 8201), ("zwnj", 8204),
   ("zwj", 8205), ("lrm", 8206), ("rlm", 8207), ("ndash", 8211),
   ("mdash", 8212), ("lsquo", 8216), ("rsquo", 8217), ("sbquo", 8218),
   ("ldquo", 8220), ("rdquo", 8221), ("bdquo", 8222), ("dagger", 8224),
   ("Dagger", 8225), ("permil", 8240), ("lsaquo", 8249), ("rsaquo", 8250),
   ("euro", 8364)]

/-- The text produced by `handle_entityref`: a known name decodes via the
table, an unknown name is preserved verbatim as `&name;`. -/
def handle_entityref (name : String) : String :=
  match name2codepoint.lookup name with
  | some cp => String.singleton (Char.ofNat cp)
  | none => "&" ++ name ++ ";"

/-- The value of one character in a given base, as accepted by Python
`int(s, base)` for bases 10 and 16. -/
def digitVal (base : Nat) (c : Char) : Option Nat :=
  if 48 ≤ c.toNat ∧ c.toNat ≤ 57 then
    (if c.toNat - 48 < base then some (c.toNat - 48) else none)
  else if base = 16 ∧ 97 ≤ c.toNat ∧ c.toNat ≤ 102 then some (c.toNat - 87)
  else if base = 16 ∧ 65 ≤ c.toNat ∧ c.toNat ≤ 70 then some (c.toNat - 55)
  else none

mutual

/-- Continue a digit group after its first digit: single underscores are
allowed between digits, never doubled and never trailing. -/
def digitsCore (base : Nat) : List Char → Nat → Option Nat
  | [], acc => some acc
  | c :: rest, acc =>
    if c = '_' then digitsAfterUnderscore base rest acc
    else
      match digitVal base c with
      | some v => digitsCore base rest (acc * base + v)
      | none => none

/-- After an underscore a digit must follow immediately. -/
def digitsAfterUnderscore (base : Nat) : List Char → Nat → Option Nat
  | [], _ => none
  | c :: rest, acc =>
    match digitVal base c with
    | some v => digitsCore base rest (acc * base + v)
    | none => none

end

/-- A non-empty digit group: a digit followed by digits and single
interior underscores. -/
def parseDigitGroup (base : Nat) : List Char → Option Nat
  | [] => none
  | c :: rest =>
    match digitVal base c with
    | some v => digitsCore base rest v
    | none => none

/-- Strip an optional `0x`/`0X` prefix (and the single underscore Python
allows right after it) from a base-16 digit string. -/
def stripHexPrefix : List Char → List Char
  | [] => []
  | [c] => [c]
  | c0 :: c1 :: rest =>
    if c0 = '0' ∧ (c1 = 'x' ∨ c1 = 'X') then
      match rest with
      | [] => []
      | c2 :: r => if c2 = '_' then r else c2 :: r
    else c0 :: c1 :: rest

/-- Split an optional leading sign off a digit string: `true` marks a
negative number. -/
def pySignSplit (cs : List Char) : Bool × List Char :=
  match cs with
  | [] => (false, [])
  | c :: rest =>
    if c = '-' then (true, rest)
    else if c = '+' then (false, rest)
    else (false, c :: rest)

/-- The conversion core of Python `int(s, base)`, after whitespace
stripping: an optional sign, an optional hex prefix in base 16, and a
digit group; `none` models `ValueError`. -/
def pyIntCore (base : Nat) (cs : List Char) : Option Int :=
  match cs with
  | [] => none
  | c :: rest =>
    let nb := pySignSplit (c :: rest)
    let body := if base = 16 then stripHexPrefix nb.2 else nb.2
    match parseDigitGroup base body with
    | some n => some (if nb.1 then -(n : Int) else (n : Int))
    | none => none

/-- Python `int(s, base)` for bases 10 and 16: strip whitespace on both
sides and convert. -/
def pyIntParse (base : Nat) (s : String) : Option Int :=
  pyIntCore base (((s.toList.dropWhile isPySpace).reverse.dropWhile isPySpace).reverse)

/-- The numeric value of a character reference name, following
`handle_charref`: a leading `x`/`X` selects hexadecimal, otherwise the
name is parsed as decimal. -/
def charRefDecoded (name : String) : Option Int :=
  match name.toList with
  | c :: _ =>
    if c = 'x' ∨ c = 'X' then pyIntParse 16 (pyDrop name 1)
    else pyIntParse 10 name
  | [] => pyIntParse 10 name

/-- The text produced by `handle_charref`: the decoded code point when
parsing and `chr` succeed, else the original `&#name;` spelling (a failed
parse and an out-of-range code point both raise `ValueError` in Python,
which the handler catches). -/
def handle_charref (name : String) : String :=
  match charRefDecoded name with
  | some n =>
    if 0 ≤ n ∧ n < 1114112 then String.singleton (Char.ofNat n.toNat)
    else "&#" ++ name ++ ";"
  | none => "&#" ++ name ++ ";"

/-- Process one parser callback, mirroring the `handle_*` methods of
`SimpleHTMLTreeBuilder`; comments are discarded. -/
def processToken (st : PState) : Token → PState
  | .startTag t a => startNode st t a (VOID_TAGS.contains t)
  | .startEndTag t a => startNode st t a true
  | .endTag t => handle_endtag st t
  | .data s => st.addText s
  | .entityRef n => st.addText (handle_entityref n)
  | .charRef n => st.addText (handle_charref n)
  | .comment _ => st

/-- The initial builder state: only the root is open and empty. -/
def initState : PState := ⟨[], []⟩

/-- Turn the final builder state into the root node: elements still open
at end of input are implicitly closed. -/
def finalize (st : PState) : Item :=
  .elem "document" [] (closeN st.openFrames.length st).rootContents

/-- `parse_html` over the token stream of the input: feed every token to
the builder and return the root. -/
def parse_html (tokens : List Token) : Item :=
  finalize (tokens.foldl processToken initState)

/-- The test `node.attrs.get("id") in skip_ids` of `render_inner_html`:
true when the node carries an `id` attribute whose value is excluded. -/
def idSkipped (skipIds : List String) (attrs : List (String × String)) : Bool :=
  match attrGet attrs "id" with
  | some i => skipIds.contains i
  | none => false

/-- The attribute string emitted for a void element: every attribute as
` name="value"`, except that an `id` attribute is checked against the
exclusion set. -/
def renderAttrsVoid (skipIds : List String) (attrs : List (String × String)) : String :=
  String.join ((attrs.filter (fun p => p.1 != "id" || !(skipIds.contains p.2))).map
    (fun p => " " ++ p.1 ++ "=\"" ++ p.2 ++ "\""))

/-- The attribute string emitted for a non-void element: every attribute
as ` name="value"`, gated per attribute on the node's own `id` not being
excluded (a per-node-constant condition). -/
def renderAttrsNonVoid (skipIds : List String) (attrs : List (String × String)) : String :=
  String.join ((attrs.filter (fun _ => !(idSkipped skipIds attrs))).map
    (fun p => " " ++ p.1 ++ "=\"" ++ p.2 ++ "\""))

mutual

/-- The inner `render` function of `render_inner_html`: a node whose `id`
is excluded renders to nothing, `br` renders as the fixed bare form, other
void elements render as a lone open tag, and all other elements render
with their content and a closing tag. A text run renders verbatim, as the
content loop appends it unchanged. -/
def renderItem (skipIds : List String) : Item → String
  | .text s => s
  | .elem t a cs =>
    if idSkipped skipIds a then ""
    else if VOID_TAGS.contains t then
      if t = "br" then "<br>"
      else "<" ++ t ++ renderAttrsVoid skipIds a ++ ">"
    else
      "<" ++ t ++ renderAttrsNonVoid skipIds a ++ ">" ++ renderItems skipIds cs
        ++ "</" ++ t ++ ">"

/-- Render a content sequence in order. -/
def renderItems (skipIds : List String) : List Item → String
  | [] => ""
  | i :: is => renderItem skipIds i ++ renderItems skipIds is

end

/-- `render_inner_html`: render the content of `node` (the node itself is
not rendered) and strip the result. -/
def render_inner_html (node : Item) (skipIds : List String) : String :=
  pyStrip (renderItems skipIds node.contents)

mutual

/-- `iter_descendants`: pre-order depth-first traversal of an item's
element descendants. -/
def iterDescendants : Item → List Item
  | .text _ => []
  | .elem _ _ cs => descendList cs

/-- Descendants of a forest: each element child followed by its own
descendants, text runs skipped. -/
def descendList : List Item → List Item
  | [] => []
  | .text _ :: is => descendList is
  | .elem t a cs :: is =>
    .elem t a cs :: (iterDescendants (.elem t a cs) ++ descendList is)

end

/-- Python truthiness of an optional string: `None` and `""` are falsy. -/
def pyTruthy (v : Option String) : Bool :=
  match v with
  | some s => s ≠ ""
  | none => false

/-- The URL chosen for an image node:
`(attrs.get("data-imgsrc") or attrs.get("src") or "").strip()`. -/
def imgUrl (n : Item) : String :=
  let a := attrGet n.attrs "data-imgsrc"
  let b := attrGet n.attrs "src"
  pyStrip (if pyTruthy a then a.getD "" else if pyTruthy b then b.getD "" else "")

/-- Whether `pat` occurs as a contiguous sublist of the second list. -/
def listContainsSub (pat : List Char) : List Char → Bool
  | [] => listStartsWith pat []
  | c :: rest => listStartsWith pat (c :: rest) || listContainsSub pat rest

/-- Whether a URL carries the fixed high-resolution marker
`"rule=$_59"` as a substring. -/
def isHiRes (url : String) : Bool :=
  listContainsSub "rule=$_59".toList url.toList

/-- The collection loop of `extract_images`: walk the descendants keeping
a seen-set, and sort each new non-empty image URL into the
high-resolution or the fallback bucket. -/
def extractImagesAux : List Item → List String → List String → List String →
    List String × List String
  | [], _, primary, fallback => (primary, fallback)
  | n :: ns, seen, primary, fallback =>
    if n.tag != "img" then extractImagesAux ns seen primary fallback
    else
      let url := imgUrl n
      if url = "" || seen.contains url then extractImagesAux ns seen primary fallback
      else if isHiRes url then extractImagesAux ns (url :: seen) (primary ++ [url]) fallback
      else extractImagesAux ns (url :: seen) primary (fallback ++ [url])

/-- `extract_images`: scope to `#viewad-product` when present (else the
whole tree), collect the buckets, and return the high-resolution bucket
when non-empty, else the fallback bucket. -/
def extract_images (root : Item) : List String :=
  let container := (select_node root "#viewad-product").getD root
  let (primary, fallback) := extractImagesAux (iterDescendants container) [] [] []
  if primary ≠ [] then primary else fallback

/-- Specification-side helper: the candidate URL an item contributes — a
non-empty chosen URL of an image-tagged node. -/
def imgCandidate (n : Item) : Option String :=
  if n.tag == "img" then
    (if imgUrl n = "" then none else some (imgUrl n))
  else none

/-- Specification-side helper: the stream of candidate URLs, in traversal
order — one entry per image-tagged node whose chosen URL is non-empty. -/
def imgCandidateUrls (nodes : List Item) : List String :=
  nodes.filterMap imgCandidate

/-- Specification-side helper: de-duplicate by exact string, keeping the
first occurrence, relative to an already-seen set. -/
def dedupFirstFrom (seen : List String) : List String → List String
  | [] => []
  | u :: us =>
    if seen.contains u then dedupFirstFrom seen us
    else u :: dedupFirstFrom (u :: seen) us

/-- Specification-side helper: de-duplicate by exact string, keeping first
occurrences. -/
def dedupFirst (us : List String) : List String :=
  dedupFirstFrom [] us

mutual

/-- Specification-side helper: whether some node of the tree carries an
`id` attribute equal to `i`. -/
def treeHasId : Item → String → Bool
  | .text _, _ => false
  | .elem _ a cs, i => attrGet a "id" == some i || forestHasId cs i

/-- Specification-side helper: `treeHasId` over a content sequence. -/
def forestHasId : List Item → String → Bool
  | [], _ => false
  | c :: cs, i => treeHasId c i || forestHasId cs i

end

/-- Specification-side helper: the anchor identifier of a selector — the
first `>`-separated step, stripped, without its leading `#`. -/
def anchorOf (sel : String) : String :=
  pyDrop ((((pySplitSep '>' sel).map pyStrip).headD "")) 1

mutual

/-- Specification-side helper: every void-tagged element of the tree has
an empty content sequence. -/
def voidOkItem : Item → Bool
  | .text _ => true
  | .elem t _ cs =>
    (if VOID_TAGS.contains t then cs.isEmpty else true) && voidOkList cs

/-- Specification-side helper: `voidOkItem` over a content sequence. -/
def voidOkList : List Item → Bool
  | [] => true
  | i :: is => voidOkItem i && voidOkList is

end

/-- Specification-side helper: the plain attribute string with every
attribute emitted as ` name="value"`, with no filtering at all. -/
def attrsPlain (attrs : List (String × String)) : String :=
  String.join (attrs.map (fun p => " " ++ p.1 ++ "=\"" ++ p.2 ++ "\""))

/-- Specification-side helper: the identity of an open element — its tag
and attributes, without the mutable content. -/
def frameKey (f : Frame) : String × List (String × String) :=
  (f.tag, f.attrs)

/-- Specification-side helper: an ASCII decimal digit. -/
def isDecDigit (c : Char) : Bool :=
  48 ≤ c.toNat ∧ c.toNat ≤ 57

/-- Specification-side helper: an ASCII hexadecimal digit. -/
def isHexDigitChar (c : Char) : Bool :=
  (48 ≤ c.toNat ∧ c.toNat ≤ 57) ∨ (97 ≤ c.toNat ∧ c.toNat ≤ 102)
    ∨ (65 ≤ c.toNat ∧ c.toNat ≤ 70)

/-- Specification-side helper: the value of one hexadecimal digit. -/
def hexDigitVal (c : Char) : Nat :=
  if 48 ≤ c.toNat ∧ c.toNat ≤ 57 then c.toNat - 48
  else if 97 ≤ c.toNat ∧ c.toNat ≤ 102 then c.toNat - 87
  else c.toNat - 55

/-- Specification-side helper: the value of a list of hexadecimal digits. -/
def hexOfDigits (ds : List Char) : Nat :=
  ds.foldl (fun a c => a * 16 + hexDigitVal c) 0

/-- Specification-side helper: the behavior the specification ascribes to
a step carrying `:nth-child(N)` — select exactly the Nth (1-based) direct
child, check the tag/class constraint against that specific child, and
resolve to absence when N is out of range or the constraint fails. -/
def nthStep (node : Item) (tag : Option String) (classes : List String)
    (rest : List String) : Nat → Option Item
  | 0 => none
  | Nat.succ m =>
    match node.children.get? m with
    | none => none
    | some c => if match_node c tag classes then selectSteps c rest else none

/-- The first paragraph of the specification's nth-child example. -/
def exampleP1 : Item := .elem "p" [] [.text "1"]

/-- The second paragraph of the specification's nth-child example. -/
def exampleP2 : Item := .elem "p" [] [.text "2"]

/-- The third paragraph of the specification's nth-child example. -/
def exampleP3 : Item := .elem "p" [] [.text "3"]

/-- The container `<div id="root"><p>1</p><p>2</p><p>3</p></div>` of the
specification's nth-child example. -/
def exampleRoot : Item := .elem "div" [("id", "root")] [exampleP1, exampleP2, exampleP3]

/-- Specification-side helper: the image collection the specification
describes — de-duplicate the candidate URLs of the scoped pre-order
traversal keeping first occurrences, partition them by the
high-resolution marker, and return the preferred bucket when non-empty,
else the fallback bucket. -/
def specImages (root : Item) : List String :=
  let urls := dedupFirst (imgCandidateUrls (iterDescendants
    ((select_node root "#viewad-product").getD root)))
  let hi := urls.filter (fun u => isHiRes u)
  if hi ≠ [] then hi else urls.filter (fun u => !(isHiRes u))

/-- Specification-side helper: the builder-state invariant behind the
void-element guarantee — all content built so far satisfies `voidOkItem`,
and no open element carries a void tag. -/
def stOk (st : PState) : Prop :=
  voidOkList st.rootContents = true ∧
  ∀ f ∈ st.openFrames, voidOkList f.contents = true ∧ VOID_TAGS.contains f.tag = false

/-! ## Theorems -/

/-- Claim C1, counterexample: the selector `"#root >"` has a trailing
empty step, yet `select_node` does not resolve to absence — the empty step
is skipped and the anchor node itself is returned. -/
theorem claim_C1_counterexample :
    select_node (.elem "div" [("id", "root")] []) "#root >"
      = some (.elem "div" [("id", "root")] []) ∧
    select_node (.elem "div" [("id", "root")] []) "#root >" ≠ none := by
  refine ⟨rfl, ?_⟩
  intro h
  rw [show select_node (.elem "div" [("id", "root")] []) "#root >"
        = some (.elem "div" [("id", "root")] []) from rfl] at h
  exact Option.noConfusion h

/-- Claim C1 (amended): an empty selector step (an empty string between
two `>` separators or after a trailing `>`) is skipped, not failed: the
selector resolves exactly as if the empty step were absent. -/
theorem claim_C1_empty_step_skipped (node : Item) (rest : List String) :
    selectSteps node ("" :: rest) = selectSteps node rest := rfl

/-- Claim C2, counterexample: the step `.foo` is class-only; the anchor's
direct child does carry class `foo` (so `match_node` accepts it), yet
`select_node` resolves `"#root > .foo"` to absence. -/
theorem claim_C2_counterexample :
    match_node (.elem "p" [("class", "foo")] []) none ["foo"] = true ∧
    select_node (.elem "div" [("id", "root")] [.elem "p" [("class", "foo")] []])
      "#root > .foo" = none :=
  ⟨rfl, rfl⟩

/-- Claim C2 (amended): a non-first, non-empty selector step that parses
to no tag and no nth-child clause — in particular any step consisting only
of class tokens — always fails the whole selector, regardless of what
direct children the current node has. -/
theorem claim_C2_class_only_step_fails (node : Item) (part : String)
    (rest : List String) (classes : List String)
    (hne : part ≠ "") (hp : parse_simple_selector part = (none, classes, none)) :
    selectSteps node (part :: rest) = none := by
  rw [selectSteps, if_neg hne, hp]
  rfl

/-- Claim C2, witness: the amended theorem applied to the concrete
class-only step `.foo` under a node that has a matching child. -/
theorem claim_C2_witness :
    selectSteps (.elem "div" [] [.elem "p" [("class", "foo")] []]) [".foo"] = none :=
  claim_C2_class_only_step_fails (.elem "div" [] [.elem "p" [("class", "foo")] []])
    ".foo" [] ["foo"] (by decide) rfl

/-- Helper: unfolding `nthStep` at a successor index. -/
theorem nthStep_succ (node : Item) (tag : Option String) (classes : List String)
    (rest : List String) (m : Nat) :
    nthStep node tag classes rest (m + 1) =
      (match node.children.get? m with
       | none => none
       | some c => if match_node c tag classes then selectSteps c rest else none) := rfl

/-- Claim C3: a selector step carrying `:nth-child(N)` selects exactly the
Nth (1-based) direct child of the current node and then checks the step's
tag and class constraints against that specific child; an out-of-range N
or a failed constraint resolves the selector to absence. In particular, on
`<div id="root"><p>1</p><p>2</p><p>3</p></div>`, `#root > p:nth-child(2)`
yields the paragraph containing `"2"` and `#root > p:nth-child(5)` yields
absence. -/
theorem claim_C3_nth_child :
    (∀ (node : Item) (part : String) (rest : List String) (tag : Option String)
        (classes : List String) (n : Nat),
      parse_simple_selector part = (tag, classes, some n) →
      selectSteps node (part :: rest) = nthStep node tag classes rest n) ∧
    select_node exampleRoot "#root > p:nth-child(2)" = some exampleP2 ∧
    select_node exampleRoot "#root > p:nth-child(5)" = none := by
  refine ⟨?_, rfl, rfl⟩
  intro node part rest tag classes n hp
  by_cases hne : part = ""
  · subst hne
    rw [show parse_simple_selector "" = (none, [], none) from rfl] at hp
    simp only [Prod.mk.injEq] at hp
    exact Option.noConfusion hp.2.2
  · rw [selectSteps, if_neg hne, hp]
    have hguard : ¬ (tag = none ∧ some n = none) := by
      intro h
      exact Option.noConfusion h.2
    simp only [if_neg hguard]
    cases n with
    | zero =>
      have hc : ¬ (0 ≤ ((0 : Nat) : Int) - 1 ∧
          ((0 : Nat) : Int) - 1 < (node.children.length : Int)) := by
        intro h
        omega
      rw [if_neg hc]
      rfl
    | succ m =>
      rw [nthStep_succ]
      rcases hgm : node.children.get? m with _ | c
      · have hlen : node.children.length ≤ m := List.get?_eq_none.mp hgm
        have hc : ¬ (0 ≤ ((m + 1 : Nat) : Int) - 1 ∧
            ((m + 1 : Nat) : Int) - 1 < (node.children.length : Int)) := by
          intro h
          omega
        rw [if_neg hc]
      · have hlt : m < node.children.length := by
          by_contra hge
          rw [List.get?_eq_none.mpr (by omega)] at hgm
          exact Option.noConfusion hgm
        have hc : (0 ≤ ((m + 1 : Nat) : Int) - 1 ∧
            ((m + 1 : Nat) : Int) - 1 < (node.children.length : Int)) := by
          refine ⟨by omega, by omega⟩
        rw [if_pos hc]
        have hidx : (((m + 1 : Nat) : Int) - 1).toNat = m := by
          omega
        rw [hidx, hgm]
        rcases tag with _ | t
        · by_cases hm : match_node c none classes = true
          · simp [hm]
          · simp [hm]
        · by_cases ht : c.tag = t
          · by_cases hm : match_node c (some t) classes = true
            · simp [ht, hm]
            · simp [ht, hm]
          · have hm : match_node c (some t) classes = false := by
              unfold match_node
              simp [ht]
            simp [ht, hm]

/-- Claim C3, witness: the general nth-child statement applied to the
concrete step `p:nth-child(2)` at the example container. -/
theorem claim_C3_witness :
    selectSteps exampleRoot ["p:nth-child(2)"] =
      nthStep exampleRoot (some "p") [] [] 2 :=
  claim_C3_nth_child.1 exampleRoot "p:nth-child(2)" [] (some "p") [] 2 rfl

mutual

/-- Helper: a tree containing no node with id `a` gives no `find_by_id`
hit. -/
theorem find_by_id_none : ∀ (n : Item) (a : String),
    treeHasId n a = false → find_by_id n a = none
  | .text _, _, _ => rfl
  | .elem t a' cs, i, h => by
    simp only [treeHasId, Bool.or_eq_false_iff, beq_eq_false_iff_ne, ne_eq] at h
    rw [find_by_id, if_neg h.1]
    exact findByIdList_none cs i h.2

/-- Helper: a forest containing no node with id `a` gives no
`findByIdList` hit. -/
theorem findByIdList_none : ∀ (cs : List Item) (a : String),
    forestHasId cs a = false → findByIdList cs a = none
  | [], _, _ => rfl
  | c :: cs, i, h => by
    simp only [forestHasId, Bool.or_eq_false_iff] at h
    rw [findByIdList, find_by_id_none c i h.1]
    exact findByIdList_none cs i h.2

end

/-- Helper: a selector whose anchor identifier appears on no node of the
tree resolves to absence. -/
theorem select_node_none_of_no_anchor (root : Item) (sel : String)
    (h : treeHasId root (anchorOf sel) = false) : select_node root sel = none := by
  rw [select_node]
  rcases hparts : (pySplitSep '>' sel).map pyStrip with _ | ⟨first, rest⟩
  · rfl
  · show (if ¬ pyStartsWith first "#" = true then none
        else match find_by_id root (pyDrop first 1) with
          | none => none
          | some node => selectSteps node rest) = none
    by_cases hs : pyStartsWith first "#" = true
    · rw [if_neg (by simp [hs])]
      have ha : anchorOf sel = pyDrop first 1 := by
        rw [anchorOf, hparts]
        rfl
      rw [ha] at h
      rw [find_by_id_none root _ h]
    · rw [if_pos (by simp [hs])]

/-- Claim C8: the empty token stream parses to a childless root against
which every selector resolves to absence; in general, a selector whose
anchor id occurs nowhere in the tree resolves to absence (never an
error). -/
theorem claim_C8_absence :
    parse_html [] = .elem "document" [] [] ∧
    (∀ sel : String, select_node (.elem "document" [] []) sel = none) ∧
    (∀ (root : Item) (sel : String),
      treeHasId root (anchorOf sel) = false → select_node root sel = none) := by
  refine ⟨rfl, ?_, select_node_none_of_no_anchor⟩
  intro sel
  exact select_node_none_of_no_anchor _ sel rfl

/-- Claim C8, witness: a tree that carries only the id `x` resolves the
selector `#missing-id` to absence. -/
theorem claim_C8_witness :
    select_node (.elem "div" [("id", "x")] []) "#missing-id" = none :=
  claim_C8_absence.2.2 (.elem "div" [("id", "x")] []) "#missing-id" rfl

/-- Helper: closing the innermost open element keeps the identities (tag
and attributes) of the remaining open elements: only their accumulated
content can change. -/
theorem closeTop_openFrames_map (st : PState) :
    (closeTop st).openFrames.map frameKey = (st.openFrames.map frameKey).tail := by
  rcases st with ⟨fs, rc⟩
  rcases fs with _ | ⟨f, fs⟩
  · rfl
  · rcases fs with _ | ⟨g, gs⟩
    · rfl
    · rfl

/-- Helper: closing `k` innermost open elements drops the `k` innermost
open-element identities. -/
theorem closeN_openFrames_map (k : Nat) (st : PState) :
    (closeN k st).openFrames.map frameKey = (st.openFrames.map frameKey).drop k := by
  induction k generalizing st with
  | zero => rfl
  | succ n ih =>
    rw [closeN, ih (closeTop st), closeTop_openFrames_map]
    rcases hm : st.openFrames.map frameKey with _ | ⟨x, xs⟩
    · simp
    · simp [List.drop_succ_cons]

/-- Helper: a scan finding no match returns no index. -/
theorem frameFindIdx_none (p : Frame → Bool) :
    ∀ l : List Frame, (∀ f ∈ l, p f = false) → frameFindIdx p l = none
  | [], _ => rfl
  | f :: fs, h => by
    rw [frameFindIdx, if_neg (by rw [h f (List.mem_cons_self f fs)]; exact Bool.false_ne_true),
      frameFindIdx_none p fs (fun g hg => h g (List.mem_cons_of_mem f hg))]
    rfl

/-- Helper: a scan over `pre ++ f :: post` where nothing in `pre` matches
and `f` matches finds exactly the position of `f`. -/
theorem frameFindIdx_append (p : Frame → Bool) (f : Frame) (post : List Frame)
    (hf : p f = true) :
    ∀ pre : List Frame, (∀ g ∈ pre, p g = false) →
      frameFindIdx p (pre ++ f :: post) = some pre.length
  | [], _ => by
    rw [List.nil_append, frameFindIdx, if_pos hf]
    rfl
  | g :: gs, hpre => by
    rw [List.cons_append, frameFindIdx,
      if_neg (by rw [hpre g (List.mem_cons_self g gs)]; exact Bool.false_ne_true),
      frameFindIdx_append p f post hf gs (fun g' hg' => hpre g' (List.mem_cons_of_mem g hg'))]
    rfl

/-- Claim C4: on an end tag, when no open element above the root carries
the tag, the builder state — in particular the open-element stack — is
unchanged (the end tag is ignored, and processing it is total); when some
open element matches, the nearest match and everything above it are
popped, leaving exactly the open elements below the match. -/
theorem claim_C4_end_tag :
    (∀ (st : PState) (t : String),
      (∀ f ∈ st.openFrames, f.tag ≠ t) → handle_endtag st t = st) ∧
    (∀ (st : PState) (t : String) (pre : List Frame) (f : Frame) (post : List Frame),
      st.openFrames = pre ++ f :: post →
      (∀ g ∈ pre, g.tag ≠ t) → f.tag = t →
      ((handle_endtag st t).openFrames).map frameKey = post.map frameKey) := by
  constructor
  · intro st t h
    rw [handle_endtag, frameFindIdx_none _ st.openFrames
      (fun f hf => by simp [h f hf])]
  · intro st t pre f post hst hpre hf
    rw [handle_endtag, hst, frameFindIdx_append _ f post (by simp [hf]) pre
      (fun g hg => by simp [hpre g hg])]
    show ((closeN (pre.length + 1) st).openFrames).map frameKey = post.map frameKey
    rw [closeN_openFrames_map, hst, List.map_append, List.map_cons]
    rw [show pre.length = (pre.map frameKey).length from (List.length_map pre frameKey).symm]
    rw [List.drop_append_eq_append_drop]
    simp [List.drop_succ_cons]

/-- Claim C4, witness: an end tag matching no open element leaves a
concrete builder state unchanged. -/
theorem claim_C4_witness :
    handle_endtag ⟨[⟨"div", [], []⟩], [.text "t"]⟩ "span"
      = ⟨[⟨"div", [], []⟩], [.text "t"]⟩ :=
  claim_C4_end_tag.1 ⟨[⟨"div", [], []⟩], [.text "t"]⟩ "span" (by decide)

/-- Helper: `voidOkList` distributes over append. -/
theorem voidOkList_append : ∀ xs ys : List Item,
    voidOkList (xs ++ ys) = (voidOkList xs && voidOkList ys)
  | [], ys => by simp [voidOkList]
  | x :: xs, ys => by
    rw [List.cons_append, voidOkList, voidOkList, voidOkList_append xs ys,
      Bool.and_assoc]

/-- Helper: appending a `voidOkItem`-respecting item preserves the
builder-state invariant. -/
theorem stOk_addContent (st : PState) (item : Item)
    (hst : stOk st) (hit : voidOkItem item = true) : stOk (st.addContent item) := by
  obtain ⟨h1, h2⟩ := hst
  rw [PState.addContent]
  rcases hfs : st.openFrames with _ | ⟨f, fs⟩
  · refine ⟨?_, ?_⟩
    · simp only [voidOkList_append, h1, voidOkList, hit, Bool.and_self, Bool.and_true]
    · intro g hg
      exact h2 g (by rw [hfs]; exact hg)
  · refine ⟨h1, ?_⟩
    intro g hg
    rcases List.mem_cons.mp hg with hg | hg
    · subst hg
      have hf := h2 f (by rw [hfs]; exact List.mem_cons_self f fs)
      refine ⟨?_, hf.2⟩
      simp only [voidOkList_append, hf.1, voidOkList, hit, Bool.and_self, Bool.and_true]
    · exact h2 g (by rw [hfs]; exact List.mem_cons_of_mem f hg)

/-- Helper: adding text preserves the builder-state invariant. -/
theorem stOk_addText (st : PState) (s : String) (hst : stOk st) :
    stOk (st.addText s) := by
  rw [PState.addText]
  by_cases hs : s = ""
  · rw [if_pos hs]
    exact hst
  · rw [if_neg hs]
    exact stOk_addContent st (.text s) hst rfl

/-- Helper: starting an element preserves the builder-state invariant;
self-closing is forced for void tags by the callers. -/
theorem stOk_startNode (st : PState) (t : String) (a : List (String × Option String))
    (sc : Bool) (hst : stOk st) (hsc : sc = false → VOID_TAGS.contains t = false) :
    stOk (startNode st t a sc) := by
  rw [startNode]
  cases sc with
  | true =>
    rw [if_pos rfl]
    refine stOk_addContent st _ hst ?_
    rw [voidOkItem]
    cases hv : VOID_TAGS.contains t <;> simp [hv, voidOkList, List.isEmpty]
  | false =>
    rw [if_neg Bool.false_ne_true]
    refine ⟨hst.1, ?_⟩
    intro g hg
    rcases List.mem_cons.mp hg with hg | hg
    · subst hg
      exact ⟨rfl, hsc rfl⟩
    · exact hst.2 g hg

/-- Helper: closing the innermost open element preserves the
builder-state invariant. -/
theorem stOk_closeTop (st : PState) (hst : stOk st) : stOk (closeTop st) := by
  rw [closeTop]
  rcases hfs : st.openFrames with _ | ⟨f, fs⟩
  · exact hst
  · have hf := hst.2 f (by rw [hfs]; exact List.mem_cons_self f fs)
    refine stOk_addContent ⟨fs, st.rootContents⟩ _ ⟨hst.1, ?_⟩ ?_
    · intro g hg
      exact hst.2 g (by rw [hfs]; exact List.mem_cons_of_mem f hg)
    · rw [voidOkItem, hf.2, hf.1]
      simp

/-- Helper: closing any number of open elements preserves the
builder-state invariant. -/
theorem stOk_closeN : ∀ (k : Nat) (st : PState), stOk st → stOk (closeN k st)
  | 0, _, hst => hst
  | k + 1, st, hst => stOk_closeN k (closeTop st) (stOk_closeTop st hst)

/-- Helper: processing any token preserves the builder-state invariant. -/
theorem stOk_processToken (st : PState) (tok : Token) (hst : stOk st) :
    stOk (processToken st tok) := by
  cases tok with
  | startTag t a =>
    refine stOk_startNode st t a _ hst ?_
    intro h
    exact h
  | startEndTag t a =>
    exact stOk_startNode st t a true hst (fun h => Bool.noConfusion h)
  | endTag t =>
    rw [processToken, handle_endtag]
    rcases frameFindIdx (fun f => f.tag == t) st.openFrames with _ | i
    · exact hst
    · exact stOk_closeN (i + 1) st hst
  | data s => exact stOk_addText st s hst
  | entityRef n => exact stOk_addText st _ hst
  | charRef n => exact stOk_addText st _ hst
  | comment s => exact hst

/-- Helper: the invariant holds after feeding any token stream. -/
theorem stOk_foldl : ∀ (tokens : List Token) (st : PState), stOk st →
    stOk (tokens.foldl processToken st)
  | [], _, hst => hst
  | tok :: toks, st, hst =>
    stOk_foldl toks (processToken st tok) (stOk_processToken st tok hst)

/-- Helper: `PState.addContent` never changes the tags of the open
elements. -/
theorem addContent_openFrames_tags (st : PState) (item : Item) :
    ((st.addContent item).openFrames).map Frame.tag = st.openFrames.map Frame.tag := by
  rw [PState.addContent]
  rcases st.openFrames with _ | ⟨f, fs⟩
  · rfl
  · rfl

/-- Claim C9: in every tree the builder returns, every element whose tag
is in the fixed void set has an empty content sequence; an element from a
syntactically self-closing tag is appended childless without being pushed
onto the open-element stack (so no later token can add children to it),
and a start tag of a void tag behaves exactly the same way. -/
theorem claim_C9_void_childless :
    (∀ tokens : List Token, voidOkItem (parse_html tokens) = true) ∧
    (∀ (st : PState) (t : String) (a : List (String × Option String)),
      processToken st (.startEndTag t a) = st.addContent (.elem t (attrDict a) []) ∧
      ((processToken st (.startEndTag t a)).openFrames).map Frame.tag
        = st.openFrames.map Frame.tag) ∧
    (∀ (st : PState) (t : String) (a : List (String × Option String)),
      VOID_TAGS.contains t = true →
      processToken st (.startTag t a) = st.addContent (.elem t (attrDict a) [])) := by
  refine ⟨?_, ?_, ?_⟩
  · intro tokens
    have hst : stOk (tokens.foldl processToken initState) :=
      stOk_foldl tokens initState ⟨rfl, fun f hf => absurd hf (List.not_mem_nil f)⟩
    have hfin := stOk_closeN (tokens.foldl processToken initState).openFrames.length
      (tokens.foldl processToken initState) hst
    rw [parse_html, finalize, voidOkItem]
    rw [hfin.1]
    simp
    exact Or.inl (by decide)
  · intro st t a
    refine ⟨rfl, ?_⟩
    rw [processToken, startNode, if_pos rfl]
    exact addContent_openFrames_tags st _
  · intro st t a h
    rw [processToken, startNode, h]
    rfl

/-- Claim C9, witness: a start tag of the void tag `img` is appended
childless at a concrete builder state. -/
theorem claim_C9_witness :
    processToken ⟨[], []⟩ (.startTag "img" [("src", some "u")])
      = PState.addContent ⟨[], []⟩ (.elem "img" [("src", "u")] []) :=
  claim_C9_void_childless.2.2 ⟨[], []⟩ "img" [("src", some "u")] rfl

/-- Helper: the collection loop of `extract_images` appends to its two
buckets exactly the de-duplicated candidate URL stream, partitioned by
the high-resolution marker. -/
theorem extractImagesAux_spec : ∀ (nodes : List Item) (seen primary fallback : List String),
    extractImagesAux nodes seen primary fallback =
      (primary ++ (dedupFirstFrom seen (imgCandidateUrls nodes)).filter (fun u => isHiRes u),
       fallback ++ (dedupFirstFrom seen (imgCandidateUrls nodes)).filter (fun u => !(isHiRes u)))
  | [], seen, p, f => by
    rw [extractImagesAux, imgCandidateUrls, List.filterMap_nil, dedupFirstFrom]
    simp
  | n :: ns, seen, p, f => by
    simp only [extractImagesAux, imgCandidateUrls]
    cases ht : n.tag == "img" with
    | false =>
      rw [if_pos (by simp [bne, ht]),
        List.filterMap_cons_none (show imgCandidate n = none from by simp [imgCandidate, ht])]
      exact extractImagesAux_spec ns seen p f
    | true =>
      rw [if_neg (by simp [bne, ht])]
      by_cases hu : imgUrl n = ""
      · rw [List.filterMap_cons_none
            (show imgCandidate n = none from by simp [imgCandidate, ht, hu]),
          if_pos (by simp [hu])]
        exact extractImagesAux_spec ns seen p f
      · rw [List.filterMap_cons_some
            (show imgCandidate n = some (imgUrl n) from by simp [imgCandidate, ht, hu])]
        cases hseen : seen.contains (imgUrl n) with
        | true =>
          rw [if_pos (show (decide (imgUrl n = "") || true) = true from by simp),
            dedupFirstFrom, if_pos hseen]
          exact extractImagesAux_spec ns seen p f
        | false =>
          rw [if_neg (show ¬ (decide (imgUrl n = "") || false) = true from by simp [hu]),
            dedupFirstFrom, if_neg (show ¬ seen.contains (imgUrl n) = true from
              by rw [hseen]; exact Bool.false_ne_true)]
          cases hhi : isHiRes (imgUrl n) with
          | true =>
            rw [if_pos rfl, extractImagesAux_spec ns (imgUrl n :: seen) (p ++ [imgUrl n]) f,
              List.filter_cons_of_pos (by simp [hhi]),
              List.filter_cons_of_neg (by simp [hhi]),
              List.append_assoc, List.singleton_append]
            rfl
          | false =>
            rw [if_neg Bool.false_ne_true,
              extractImagesAux_spec ns (imgUrl n :: seen) p (f ++ [imgUrl n]),
              List.filter_cons_of_neg (by simp [hhi]),
              List.filter_cons_of_pos (by simp [hhi]),
              List.append_assoc, List.singleton_append]
            rfl

/-- Claim C6: `extract_images` equals the specification pipeline — scoped
pre-order traversal, first-occurrence de-duplication by exact URL string,
partition by the high-resolution marker, preferred bucket when non-empty
else fallback — and in particular its result never mixes marked and
unmarked URLs. -/
theorem claim_C6_image_buckets (root : Item) :
    extract_images root = specImages root ∧
    ((∀ u ∈ extract_images root, isHiRes u = true) ∨
     (∀ u ∈ extract_images root, isHiRes u = false)) := by
  have hx := extractImagesAux_spec (iterDescendants
    ((select_node root "#viewad-product").getD root)) [] [] []
  simp only [List.nil_append] at hx
  have hmain : extract_images root = specImages root := by
    simp only [extract_images, specImages, dedupFirst, hx]
  refine ⟨hmain, ?_⟩
  rw [hmain]
  simp only [specImages]
  by_cases hne : (dedupFirst (imgCandidateUrls (iterDescendants
      ((select_node root "#viewad-product").getD root)))).filter (fun u => isHiRes u) ≠ []
  · left
    simp only [if_pos hne]
    intro u hu
    exact (List.mem_filter.mp hu).2
  · right
    simp only [if_neg hne]
    intro u hu
    have := (List.mem_filter.mp hu).2
    simpa using this

/-- Helper: characters with different code points differ. -/
theorem char_toNat_ne (c d : Char) (h : c.toNat ≠ d.toNat) : c ≠ d :=
  fun he => h (congrArg Char.toNat he)

/-- Helper: a list whose head is not whitespace is unchanged by a
whitespace `dropWhile`. -/
theorem dropWhile_pySpace_eq_self (l : List Char)
    (h : ∀ c ∈ l, isPySpace c = false) : l.dropWhile isPySpace = l := by
  cases l with
  | nil => rfl
  | cons c cs =>
    rw [List.dropWhile_cons, h c (List.mem_cons_self c cs)]
    simp

/-- Helper: a character with code point at least 48 is not Python
whitespace. -/
theorem isPySpace_false_of_ge (c : Char) (h48 : 48 ≤ c.toNat) :
    isPySpace c = false := by
  rw [isPySpace]
  simp only [Bool.or_eq_false_iff, decide_eq_false_iff_not]
  refine ⟨⟨⟨⟨⟨?_, ?_⟩, ?_⟩, ?_⟩, ?_⟩, ?_⟩ <;>
    · intro he
      subst he
      revert h48
      decide

/-- Helper: a decimal digit has a `digitVal` in base 10. -/
theorem digitVal10_of_dec (c : Char) (h : isDecDigit c = true) :
    digitVal 10 c = some (c.toNat - 48) := by
  have hb : 48 ≤ c.toNat ∧ c.toNat ≤ 57 := by simpa [isDecDigit] using h
  rw [digitVal, if_pos hb, if_pos (by omega)]

/-- Helper: a hexadecimal digit has `hexDigitVal` as its `digitVal` in
base 16. -/
theorem digitVal16_of_hex (c : Char) (h : isHexDigitChar c = true) :
    digitVal 16 c = some (hexDigitVal c) := by
  have hb : (48 ≤ c.toNat ∧ c.toNat ≤ 57) ∨ (97 ≤ c.toNat ∧ c.toNat ≤ 102)
      ∨ (65 ≤ c.toNat ∧ c.toNat ≤ 70) := by simpa [isHexDigitChar] using h
  rcases hb with hb | hb | hb
  · rw [digitVal, if_pos hb, if_pos (by omega), hexDigitVal, if_pos hb]
  · have hnd : ¬ (48 ≤ c.toNat ∧ c.toNat ≤ 57) := by omega
    rw [digitVal, if_neg hnd, if_pos ⟨rfl, hb⟩, hexDigitVal, if_neg hnd, if_pos hb]
  · have hnd : ¬ (48 ≤ c.toNat ∧ c.toNat ≤ 57) := by omega
    have hna : ¬ (97 ≤ c.toNat ∧ c.toNat ≤ 102) := by omega
    rw [digitVal, if_neg hnd, if_neg (fun hc => hna hc.2), if_pos ⟨rfl, hb⟩,
      hexDigitVal, if_neg hnd, if_neg hna]

/-- Helper: a decimal digit is not an underscore. -/
theorem dec_ne_underscore (c : Char) (h : isDecDigit c = true) : c ≠ '_' := by
  have hb : 48 ≤ c.toNat ∧ c.toNat ≤ 57 := by simpa [isDecDigit] using h
  exact char_toNat_ne c '_' (by rw [show ('_').toNat = 95 from rfl]; omega)

/-- Helper: a hexadecimal digit is not an underscore. -/
theorem hex_ne_underscore (c : Char) (h : isHexDigitChar c = true) : c ≠ '_' := by
  have hb : (48 ≤ c.toNat ∧ c.toNat ≤ 57) ∨ (97 ≤ c.toNat ∧ c.toNat ≤ 102)
      ∨ (65 ≤ c.toNat ∧ c.toNat ≤ 70) := by simpa [isHexDigitChar] using h
  exact char_toNat_ne c '_' (by rw [show ('_').toNat = 95 from rfl]; omega)

/-- Helper: `digitsCore` on an all-decimal-digit tail folds the digits. -/
theorem digitsCore_dec : ∀ (ds : List Char) (acc : Nat),
    (∀ c ∈ ds, isDecDigit c = true) →
    digitsCore 10 ds acc = some (ds.foldl (fun a c => a * 10 + (c.toNat - 48)) acc)
  | [], _, _ => rfl
  | c :: ds, acc, h => by
    have hc := h c (List.mem_cons_self c ds)
    rw [digitsCore, if_neg (dec_ne_underscore c hc), digitVal10_of_dec c hc,
      List.foldl_cons]
    show digitsCore 10 ds (acc * 10 + (c.toNat - 48)) = _
    exact digitsCore_dec ds (acc * 10 + (c.toNat - 48))
      (fun c' hc' => h c' (List.mem_cons_of_mem c hc'))

/-- Helper: `digitsCore` on an all-hexadecimal-digit tail folds the
digits. -/
theorem digitsCore_hex : ∀ (ds : List Char) (acc : Nat),
    (∀ c ∈ ds, isHexDigitChar c = true) →
    digitsCore 16 ds acc = some (ds.foldl (fun a c => a * 16 + hexDigitVal c) acc)
  | [], _, _ => rfl
  | c :: ds, acc, h => by
    have hc := h c (List.mem_cons_self c ds)
    rw [digitsCore, if_neg (hex_ne_underscore c hc), digitVal16_of_hex c hc,
      List.foldl_cons]
    show digitsCore 16 ds (acc * 16 + hexDigitVal c) = _
    exact digitsCore_hex ds (acc * 16 + hexDigitVal c)
      (fun c' hc' => h c' (List.mem_cons_of_mem c hc'))

/-- Helper: a non-empty all-decimal-digit group parses to its value. -/
theorem parseDigitGroup_dec (ds : List Char) (hne : ds ≠ [])
    (h : ∀ c ∈ ds, isDecDigit c = true) :
    parseDigitGroup 10 ds = some (natOfDigits ds) := by
  cases ds with
  | nil => exact absurd rfl hne
  | cons c rest =>
    have hc := h c (List.mem_cons_self c rest)
    rw [parseDigitGroup, digitVal10_of_dec c hc]
    show digitsCore 10 rest (c.toNat - 48) = _
    rw [digitsCore_dec rest (c.toNat - 48)
        (fun c' hc' => h c' (List.mem_cons_of_mem c hc')),
      natOfDigits, List.foldl_cons]
    simp

/-- Helper: a non-empty all-hexadecimal-digit group parses to its value. -/
theorem parseDigitGroup_hex (ds : List Char) (hne : ds ≠ [])
    (h : ∀ c ∈ ds, isHexDigitChar c = true) :
    parseDigitGroup 16 ds = some (hexOfDigits ds) := by
  cases ds with
  | nil => exact absurd rfl hne
  | cons c rest =>
    have hc := h c (List.mem_cons_self c rest)
    rw [parseDigitGroup, digitVal16_of_hex c hc]
    show digitsCore 16 rest (hexDigitVal c) = _
    rw [digitsCore_hex rest (hexDigitVal c)
        (fun c' hc' => h c' (List.mem_cons_of_mem c hc')),
      hexOfDigits, List.foldl_cons]
    simp

/-- Helper: whitespace stripping does not change an all-digit-class list. -/
theorem stripSides_eq_self (l : List Char)
    (h : ∀ c ∈ l, 48 ≤ c.toNat) :
    ((l.dropWhile isPySpace).reverse.dropWhile isPySpace).reverse = l := by
  have hsp : ∀ c ∈ l, isPySpace c = false :=
    fun c hc => isPySpace_false_of_ge c (h c hc)
  rw [dropWhile_pySpace_eq_self l hsp,
    dropWhile_pySpace_eq_self l.reverse (fun c hc => hsp c (List.mem_reverse.mp hc)),
    List.reverse_reverse]

/-- Helper: decimal digits have code points at least 48. -/
theorem dec_ge_48 (c : Char) (h : isDecDigit c = true) : 48 ≤ c.toNat := by
  have hb : 48 ≤ c.toNat ∧ c.toNat ≤ 57 := by simpa [isDecDigit] using h
  omega

/-- Helper: hexadecimal digits have code points at least 48. -/
theorem hex_ge_48 (c : Char) (h : isHexDigitChar c = true) : 48 ≤ c.toNat := by
  have hb : (48 ≤ c.toNat ∧ c.toNat ≤ 57) ∨ (97 ≤ c.toNat ∧ c.toNat ≤ 102)
      ∨ (65 ≤ c.toNat ∧ c.toNat ≤ 70) := by simpa [isHexDigitChar] using h
  omega

/-- Helper: the sign split is trivial on a digit-led list. -/
theorem pySignSplit_no_sign (c : Char) (rest : List Char) (h48 : 48 ≤ c.toNat)
    (h57 : c.toNat ≤ 102) :
    pySignSplit (c :: rest) = (false, c :: rest) := by
  rw [pySignSplit,
    if_neg (char_toNat_ne c '-' (by rw [show ('-').toNat = 45 from rfl]; omega)),
    if_neg (char_toNat_ne c '+' (by rw [show ('+').toNat = 43 from rfl]; omega))]

/-- Helper: unfolding the hex-prefix stripper on a two-element-or-longer
list. -/
theorem stripHexPrefix_cons2 (c0 c1 : Char) (l1 : List Char) :
    stripHexPrefix (c0 :: c1 :: l1) =
      (if c0 = '0' ∧ (c1 = 'x' ∨ c1 = 'X') then
        (match l1 with
         | [] => []
         | c2 :: r => if c2 = '_' then r else c2 :: r)
      else c0 :: c1 :: l1) := rfl

/-- Helper: the hex-prefix stripper does not fire on an all-hexadecimal
list. -/
theorem stripHexPrefix_eq_self (l : List Char)
    (h : ∀ c ∈ l, isHexDigitChar c = true) : stripHexPrefix l = l := by
  cases l with
  | nil => rfl
  | cons c0 l0 =>
    cases l0 with
    | nil => rfl
    | cons c1 l1 =>
      have hc1 := h c1 (List.mem_cons_of_mem c0 (List.mem_cons_self c1 l1))
      have hb : (48 ≤ c1.toNat ∧ c1.toNat ≤ 57) ∨ (97 ≤ c1.toNat ∧ c1.toNat ≤ 102)
          ∨ (65 ≤ c1.toNat ∧ c1.toNat ≤ 70) := by simpa [isHexDigitChar] using hc1
      rw [stripHexPrefix_cons2]
      refine if_neg (fun hcon => ?_)
      rcases hcon.2 with hx | hx
      · rw [hx] at hb
        revert hb
        decide
      · rw [hx] at hb
        revert hb
        decide

/-- Helper: Python `int` on a non-empty all-decimal string yields its
value. -/
theorem pyIntParse_dec (s : String) (hne : s.toList ≠ [])
    (h : ∀ c ∈ s.toList, isDecDigit c = true) :
    pyIntParse 10 s = some ((natOfDigits s.toList : Nat) : Int) := by
  rw [pyIntParse, stripSides_eq_self s.toList (fun c hc => dec_ge_48 c (h c hc))]
  rcases hs : s.toList with _ | ⟨c, rest⟩
  · exact absurd hs hne
  · have h' : ∀ c' ∈ c :: rest, isDecDigit c' = true := hs ▸ h
    have hc := h' c (List.mem_cons_self c rest)
    have hb : 48 ≤ c.toNat ∧ c.toNat ≤ 57 := by simpa [isDecDigit] using hc
    rw [pyIntCore]
    simp only [pySignSplit_no_sign c rest (by omega) (by omega)]
    rw [if_neg (by omega : ¬ (10 : Nat) = 16)]
    rw [parseDigitGroup_dec (c :: rest) (List.cons_ne_nil c rest) h']
    rfl

/-- Helper: Python `int` base 16 on a non-empty all-hexadecimal string
yields its value. -/
theorem pyIntParse_hex (s : String) (hne : s.toList ≠ [])
    (h : ∀ c ∈ s.toList, isHexDigitChar c = true) :
    pyIntParse 16 s = some ((hexOfDigits s.toList : Nat) : Int) := by
  rw [pyIntParse, stripSides_eq_self s.toList (fun c hc => hex_ge_48 c (h c hc))]
  rcases hs : s.toList with _ | ⟨c, rest⟩
  · exact absurd hs hne
  · have h' : ∀ c' ∈ c :: rest, isHexDigitChar c' = true := hs ▸ h
    have hc := h' c (List.mem_cons_self c rest)
    have hb : (48 ≤ c.toNat ∧ c.toNat ≤ 57) ∨ (97 ≤ c.toNat ∧ c.toNat ≤ 102)
        ∨ (65 ≤ c.toNat ∧ c.toNat ≤ 70) := by simpa [isHexDigitChar] using hc
    rw [pyIntCore]
    simp only [pySignSplit_no_sign c rest (by omega) (by omega)]
    rw [if_pos trivial, stripHexPrefix_eq_self (c :: rest) h']
    rw [parseDigitGroup_hex (c :: rest) (List.cons_ne_nil c rest) h']
    rfl

/-- Helper: a decimal character reference decodes through `charRefDecoded`
to its digit value. -/
theorem charRefDecoded_dec (s : String) (hne : s.toList ≠ [])
    (hd : ∀ c ∈ s.toList, isDecDigit c = true) :
    charRefDecoded s = some ((natOfDigits s.toList : Nat) : Int) := by
  rw [charRefDecoded]
  rcases hs : s.toList with _ | ⟨c, rest⟩
  · exact absurd hs hne
  · have hc : isDecDigit c = true := hd c (hs ▸ List.mem_cons_self c rest)
    have hb : 48 ≤ c.toNat ∧ c.toNat ≤ 57 := by simpa [isDecDigit] using hc
    show (if c = 'x' ∨ c = 'X' then pyIntParse 16 (pyDrop s 1) else pyIntParse 10 s)
      = some ((natOfDigits (c :: rest) : Nat) : Int)
    rw [if_neg (by rintro (hx | hx) <;> (rw [hx] at hb; revert hb; decide)), ← hs]
    exact pyIntParse_dec s hne hd

/-- Helper: a hexadecimal character reference with a lower-case marker
decodes through `charRefDecoded` to its digit value. -/
theorem charRefDecoded_hex_x (s : String) (hne : s.toList ≠ [])
    (hd : ∀ c ∈ s.toList, isHexDigitChar c = true) :
    charRefDecoded ("x" ++ s) = some ((hexOfDigits s.toList : Nat) : Int) := by
  rw [charRefDecoded]
  rw [show ("x" ++ s).toList = 'x' :: s.toList from rfl]
  show (if 'x' = 'x' ∨ 'x' = 'X' then pyIntParse 16 (pyDrop ("x" ++ s) 1)
      else pyIntParse 10 ("x" ++ s)) = some ((hexOfDigits s.toList : Nat) : Int)
  rw [if_pos (Or.inl rfl), show pyDrop ("x" ++ s) 1 = s from rfl]
  exact pyIntParse_hex s hne hd

/-- Helper: a hexadecimal character reference with an upper-case marker
decodes through `charRefDecoded` to its digit value. -/
theorem charRefDecoded_hex_X (s : String) (hne : s.toList ≠ [])
    (hd : ∀ c ∈ s.toList, isHexDigitChar c = true) :
    charRefDecoded ("X" ++ s) = some ((hexOfDigits s.toList : Nat) : Int) := by
  rw [charRefDecoded]
  rw [show ("X" ++ s).toList = 'X' :: s.toList from rfl]
  show (if 'X' = 'x' ∨ 'X' = 'X' then pyIntParse 16 (pyDrop ("X" ++ s) 1)
      else pyIntParse 10 ("X" ++ s)) = some ((hexOfDigits s.toList : Nat) : Int)
  rw [if_pos (Or.inr rfl), show pyDrop ("X" ++ s) 1 = s from rfl]
  exact pyIntParse_hex s hne hd

/-- Helper: a decoded in-range code point renders as that character. -/
theorem handle_charref_of_decoded (name : String) (v : Nat)
    (hdec : charRefDecoded name = some ((v : Nat) : Int)) (hlt : v < 1114112) :
    handle_charref name = String.singleton (Char.ofNat v) := by
  rw [handle_charref, hdec]
  show (if 0 ≤ ((v : Nat) : Int) ∧ ((v : Nat) : Int) < 1114112 then
      String.singleton (Char.ofNat ((v : Nat) : Int).toNat)
    else "&#" ++ name ++ ";") = String.singleton (Char.ofNat v)
  rw [if_pos ⟨by omega, by omega⟩]
  simp

/-- Claim C5: character-reference handling — a named reference in the
standard table decodes to its code point (`&amp;` yields `&`) and an
unknown name is preserved verbatim as `&name;`; a decimal `&#NN;` and a
hex `&#xHH;`/`&#XHH;` reference decode to the corresponding code point
(`&#65;` and `&#x41;` both yield `A`), and a numeric form that fails to
parse (or whose code point is out of `chr`'s range) is preserved verbatim
in its original `&#...;` spelling. -/
theorem claim_C5_char_references :
    (∀ (name : String) (cp : Nat), name2codepoint.lookup name = some cp →
      handle_entityref name = String.singleton (Char.ofNat cp)) ∧
    (∀ name : String, name2codepoint.lookup name = none →
      handle_entityref name = "&" ++ name ++ ";") ∧
    handle_entityref "amp" = "&" ∧
    (∀ s : String, s.toList ≠ [] → (∀ c ∈ s.toList, isDecDigit c = true) →
      natOfDigits s.toList < 1114112 →
      handle_charref s = String.singleton (Char.ofNat (natOfDigits s.toList))) ∧
    (∀ s : String, s.toList ≠ [] → (∀ c ∈ s.toList, isHexDigitChar c = true) →
      hexOfDigits s.toList < 1114112 →
      handle_charref ("x" ++ s) = String.singleton (Char.ofNat (hexOfDigits s.toList)) ∧
      handle_charref ("X" ++ s) = String.singleton (Char.ofNat (hexOfDigits s.toList))) ∧
    handle_charref "65" = "A" ∧
    handle_charref "x41" = "A" ∧
    handle_charref "X41" = "A" ∧
    (∀ name : String, charRefDecoded name = none →
      handle_charref name = "&#" ++ name ++ ";") ∧
    (∀ (name : String) (n : Int), charRefDecoded name = some n →
      ¬ (0 ≤ n ∧ n < 1114112) →
      handle_charref name = "&#" ++ name ++ ";") ∧
    handle_charref "xzz" = "&#xzz;" ∧
    handle_charref "1114112" = "&#1114112;" := by
  refine ⟨?_, ?_, rfl, ?_, ?_, rfl, rfl, rfl, ?_, ?_, rfl, rfl⟩
  · intro name cp h
    rw [handle_entityref, h]
  · intro name h
    rw [handle_entityref, h]
  · intro s hne hd hlt
    exact handle_charref_of_decoded s (natOfDigits s.toList)
      (charRefDecoded_dec s hne hd) hlt
  · intro s hne hd hlt
    exact ⟨handle_charref_of_decoded ("x" ++ s) (hexOfDigits s.toList)
        (charRefDecoded_hex_x s hne hd) hlt,
      handle_charref_of_decoded ("X" ++ s) (hexOfDigits s.toList)
        (charRefDecoded_hex_X s hne hd) hlt⟩
  · intro name h
    rw [handle_charref, h]
  · intro name n h hn
    rw [handle_charref, h]
    show (if 0 ≤ n ∧ n < 1114112 then String.singleton (Char.ofNat n.toNat)
        else "&#" ++ name ++ ";") = "&#" ++ name ++ ";"
    rw [if_neg hn]

/-- Claim C5, witness: the general decimal statement applied at the
concrete reference name `65`. -/
theorem claim_C5_witness :
    handle_charref "65" = String.singleton (Char.ofNat (natOfDigits "65".toList)) :=
  claim_C5_char_references.2.2.2.1 "65" (by decide) (by decide) (by decide)

/-- Helper: `dropWhile` is idempotent. -/
theorem dropWhile_dropWhile (p : Char → Bool) : ∀ l : List Char,
    (l.dropWhile p).dropWhile p = l.dropWhile p
  | [] => rfl
  | c :: l => by
    cases hp : p c with
    | true =>
      rw [List.dropWhile_cons, hp]
      simpa using dropWhile_dropWhile p l
    | false =>
      rw [List.dropWhile_cons, hp]
      simp [List.dropWhile_cons, hp]

/-- Helper: `dropWhile` never lengthens a list. -/
theorem length_dropWhile_le (p : Char → Bool) : ∀ l : List Char,
    (l.dropWhile p).length ≤ l.length
  | [] => Nat.le_refl _
  | c :: l => by
    rw [List.dropWhile_cons]
    cases hp : p c with
    | true =>
      simp only [if_true]
      exact Nat.le_succ_of_le (length_dropWhile_le p l)
    | false => simp

/-- Helper: a cons fixed by `dropWhile` has a head failing the predicate. -/
theorem dropWhile_cons_fix_head (p : Char → Bool) (x : Char) (r : List Char)
    (h : (x :: r).dropWhile p = x :: r) : p x = false := by
  cases hp : p x with
  | false => rfl
  | true =>
    rw [List.dropWhile_cons, hp] at h
    simp only [if_true] at h
    have hlen := congrArg List.length h
    have hle := length_dropWhile_le p r
    simp at hlen
    omega

/-- Helper: a prefix of a `dropWhile`-fixed list is itself fixed. -/
theorem dropWhile_prefix_self (p : Char → Bool) (b t : List Char)
    (h : (b ++ t).dropWhile p = b ++ t) : b.dropWhile p = b := by
  cases b with
  | nil => rfl
  | cons x b' =>
    have hx : p x = false := dropWhile_cons_fix_head p x (b' ++ t) (by simpa using h)
    rw [List.dropWhile_cons, hx]
    simp

/-- Helper: `pyStrip` is idempotent — its output carries no leading or
trailing whitespace. -/
theorem pyStrip_idem (s : String) : pyStrip (pyStrip s) = pyStrip s := by
  have hL1 : (s.toList.dropWhile isPySpace).dropWhile isPySpace
      = s.toList.dropWhile isPySpace := dropWhile_dropWhile isPySpace s.toList
  have hsplit : s.toList.dropWhile isPySpace =
      ((s.toList.dropWhile isPySpace).reverse.dropWhile isPySpace).reverse
        ++ ((s.toList.dropWhile isPySpace).reverse.takeWhile isPySpace).reverse := by
    conv_lhs => rw [← List.reverse_reverse (s.toList.dropWhile isPySpace),
      ← List.takeWhile_append_dropWhile (p := isPySpace)
        (l := (s.toList.dropWhile isPySpace).reverse)]
    rw [List.reverse_append]
  have h1 : (((s.toList.dropWhile isPySpace).reverse.dropWhile isPySpace).reverse).dropWhile
      isPySpace = ((s.toList.dropWhile isPySpace).reverse.dropWhile isPySpace).reverse :=
    dropWhile_prefix_self isPySpace _ _ (by rw [← hsplit]; exact hL1)
  show (⟨((((pyStrip s).toList).dropWhile isPySpace).reverse.dropWhile isPySpace).reverse⟩
      : String) = pyStrip s
  rw [show (pyStrip s).toList
      = ((s.toList.dropWhile isPySpace).reverse.dropWhile isPySpace).reverse from rfl]
  rw [h1, List.reverse_reverse, dropWhile_dropWhile]
  rfl

/-- Helper: non-void attribute emission is unfiltered for a rendered
node. -/
theorem renderAttrsNonVoid_plain (skipIds : List String)
    (a : List (String × String)) (h : idSkipped skipIds a = false) :
    renderAttrsNonVoid skipIds a = attrsPlain a := by
  rw [renderAttrsNonVoid, attrsPlain, h]
  simp

/-- Helper: lookup on a non-empty attribute list takes the head binding
when the key matches, else continues. -/
theorem attrGet_cons (k' v' k : String) (rest : List (String × String)) :
    attrGet ((k', v') :: rest) k
      = if (k' == k) = true then some v' else attrGet rest k := by
  rw [attrGet, attrGet, List.find?_cons]
  cases h : k' == k with
  | true => simp [h]
  | false => simp [h]

/-- Helper: a first-occurrence lookup finds the binding of any present
key when the keys are duplicate-free. -/
theorem attrGet_of_mem_nodup : ∀ (a : List (String × String)) (k v : String),
    (a.map Prod.fst).Nodup → (k, v) ∈ a → attrGet a k = some v
  | [], _, _, _, hmem => absurd hmem (List.not_mem_nil _)
  | (k', v') :: rest, k, v, hnd, hmem => by
    rw [List.map_cons] at hnd
    have hnd' := List.nodup_cons.mp hnd
    rcases List.mem_cons.mp hmem with he | hm
    · injection he with h1 h2
      subst h1
      subst h2
      rw [attrGet_cons, if_pos (by simp)]
    · have hk : k ∈ rest.map Prod.fst := List.mem_map.mpr ⟨(k, v), hm, rfl⟩
      have hne : (k' == k) = false := by
        simp only [beq_eq_false_iff_ne, ne_eq]
        intro he
        exact hnd'.1 (he ▸ hk)
      rw [attrGet_cons, if_neg (by simp [hne])]
      exact attrGet_of_mem_nodup rest k v hnd'.2 hm

/-- Helper: void attribute emission is unfiltered for a rendered node
with duplicate-free attribute keys. -/
theorem renderAttrsVoid_plain (skipIds : List String)
    (a : List (String × String)) (hnd : (a.map Prod.fst).Nodup)
    (h : idSkipped skipIds a = false) :
    renderAttrsVoid skipIds a = attrsPlain a := by
  rw [renderAttrsVoid, attrsPlain]
  have hall : ∀ p ∈ a, (p.1 != "id" || !(skipIds.contains p.2)) = true := by
    intro p hp
    cases hid : p.1 == "id" with
    | false => simp [bne, hid]
    | true =>
      have hk : p.1 = "id" := by simpa using hid
      have hget : attrGet a "id" = some p.2 := by
        refine attrGet_of_mem_nodup a "id" p.2 hnd ?_
        rw [← hk]
        exact hp
      have hc : skipIds.contains p.2 = false := by
        rw [idSkipped, hget] at h
        exact h
      have hnm : p.2 ∉ skipIds := by simpa using hc
      simp [bne, hid, hnm]
  rw [List.filter_eq_self.mpr (by simpa using hall)]

/-- Claim C7: the serializer omits, entirely, every node whose id is
excluded; a rendered line-break element produces the fixed bare `<br>`
form regardless of its attributes; any other rendered void element
produces a lone open tag — no children, no closing tag; and the final
output is stripped of leading and trailing whitespace (stripping it again
changes nothing). -/
theorem claim_C7_serializer :
    (∀ (skipIds : List String) (t : String) (a : List (String × String))
        (cs : List Item), idSkipped skipIds a = true →
      renderItem skipIds (.elem t a cs) = "") ∧
    (∀ (skipIds : List String) (a : List (String × String)) (cs : List Item),
      idSkipped skipIds a = false →
      renderItem skipIds (.elem "br" a cs) = "<br>") ∧
    (∀ (skipIds : List String) (t : String) (a : List (String × String))
        (cs : List Item), idSkipped skipIds a = false →
      VOID_TAGS.contains t = true → t ≠ "br" →
      renderItem skipIds (.elem t a cs)
        = "<" ++ t ++ renderAttrsVoid skipIds a ++ ">") ∧
    (∀ (node : Item) (skipIds : List String),
      pyStrip (render_inner_html node skipIds) = render_inner_html node skipIds) := by
  refine ⟨?_, ?_, ?_, ?_⟩
  · intro skipIds t a cs h
    rw [renderItem, if_pos h]
  · intro skipIds a cs h
    rw [renderItem, if_neg (by simp [h])]
    rfl
  · intro skipIds t a cs h hv hbr
    rw [renderItem, if_neg (by simp [h]), if_pos hv, if_neg hbr]
  · intro node skipIds
    rw [render_inner_html]
    exact pyStrip_idem _

/-- Claim C7, witness: a descendant with an excluded id renders to
nothing. -/
theorem claim_C7_witness :
    renderItem ["mobile-link"] (.elem "p" [("id", "mobile-link")] [.text "X"]) = "" :=
  claim_C7_serializer.1 ["mobile-link"] "p" [("id", "mobile-link")] [.text "X"] rfl

/-- Claim C10, counterexample: a rendered `br` node (its id is not
excluded — it has none) renders as the bare `<br>`, dropping its `class`
attribute entirely, so not every attribute of a rendered node is
emitted. -/
theorem claim_C10_counterexample :
    idSkipped [] [("class", "x")] = false ∧
    renderItem [] (.elem "br" [("class", "x")] []) = "<br>" ∧
    listContainsSub "class".toList
      (renderItem [] (.elem "br" [("class", "x")] [])).toList = false :=
  ⟨rfl, rfl, rfl⟩

/-- Claim C10 (amended): for every rendered node other than the
line-break element — void or not — every attribute is emitted verbatim as
` name="value"`: the per-attribute filter conditions are vacuously true
because the node's own excluded-id check has already failed (attribute
keys are duplicate-free, as Python dictionaries guarantee). -/
theorem claim_C10_attrs_verbatim (skipIds : List String) (t : String)
    (a : List (String × String)) (cs : List Item)
    (h : idSkipped skipIds a = false) (hnd : (a.map Prod.fst).Nodup) :
    (VOID_TAGS.contains t = true → t ≠ "br" →
      renderItem skipIds (.elem t a cs) = "<" ++ t ++ attrsPlain a ++ ">") ∧
    (VOID_TAGS.contains t = false →
      renderItem skipIds (.elem t a cs)
        = "<" ++ t ++ attrsPlain a ++ ">" ++ renderItems skipIds cs
          ++ "</" ++ t ++ ">") := by
  constructor
  · intro hv hbr
    rw [renderItem, if_neg (by simp [h]), if_pos hv, if_neg hbr,
      renderAttrsVoid_plain skipIds a hnd h]
  · intro hv
    rw [renderItem, if_neg (by simp [h]), if_neg (by simpa using hv),
      renderAttrsNonVoid_plain skipIds a h]

/-- Claim C10, witness: the amended statement applied to a concrete void
element and a concrete ordinary element. -/
theorem claim_C10_witness :
    renderItem [] (.elem "img" [("src", "u"), ("alt", "a")] [])
      = "<" ++ "img" ++ attrsPlain [("src", "u"), ("alt", "a")] ++ ">" :=
  (claim_C10_attrs_verbatim [] "img" [("src", "u"), ("alt", "a")] [] rfl
    (by decide)).1 rfl (by decide)

end Apify
